import Mathlib

/-!
# categraf agent: plugin discovery, activation, stop and reload

A shallow embedding of `agent/agent.go`.

* Go `string` values are Lean `String`s; `strings.HasPrefix`, `strings.HasSuffix`
  and the slice expression `s[n:]` act on the character list. The only slice in
  the source is `dirs[i][6:]` under the guard `HasPrefix(dirs[i], "input.")`,
  where the six bytes removed are the six ASCII characters of the prefix.
* The package-level map `InputConsumers` is an association list with in-place
  replacement on assignment to an existing key. Go leaves the order of `range`
  over a map unspecified; the embedding ranges in list order, and statements
  that quantify over every table cover every order.
* Channels are natural-number identities. `World` carries the table, the set
  of channels already closed, the next fresh identity handed out by `make`,
  the trace of observable operations and whether a run-time panic happened.
  Closing a channel that is already closed panics, as the Go language defines.
* Code outside this file (the `file`, `path`, `strconv` and `multiconfig`
  libraries, the plugin registry `inputs.InputCreators` and the `inputs.Input`
  methods) is a field of `Env`. `log.Println` output is not part of the state.
-/

namespace Categraf

/-! ## Go strings and maps -/

/-- Go `strings.HasPrefix(s, pre)`. -/
def HasPrefix (s pre : String) : Bool := pre.data.isPrefixOf s.data

/-- Go `strings.HasSuffix(s, suf)`. -/
def HasSuffix (s suf : String) : Bool := suf.data.isSuffixOf s.data

/-- Go slice expression `s[n:]`. -/
def sliceFrom (s : String) (n : Nat) : String := ⟨s.data.drop n⟩

/-- Go map read `m[name]` (with presence). -/
def mapGet {V : Type} : List (String × V) → String → Option V
  | [], _ => none
  | (k, v) :: rest, name => if k = name then some v else mapGet rest name

/-- Go map assignment `m[name] = v`. -/
def mapSet {V : Type} : List (String × V) → String → V → List (String × V)
  | [], name, v => [(name, v)]
  | (k, x) :: rest, name, v =>
    if k = name then (k, v) :: rest else (k, x) :: mapSet rest name v

/-- Keys of a Go map. -/
def keys {V : Type} (m : List (String × V)) : List String := m.map Prod.fst

/-! ## Data model -/

/-- The struct `Agent`. -/
structure Agent where
  ConfigDir : String
  DebugMode : Bool
  deriving DecidableEq, Repr

/-- The struct `Consumer`: a plugin instance and the identity of its channel. -/
structure Consumer (I : Type) where
  Instance : I
  Queue : Nat
  deriving DecidableEq, Repr

/-- The values of `multiconfig.Loader` that `loadConfigs` builds. -/
inductive Loader
  | TagLoader
  | EnvironmentLoader
  | TOMLLoader (Path : String)
  | JSONLoader (Path : String)
  | YAMLLoader (Path : String)
  deriving DecidableEq, Repr

/-- Observable operations, in the order they happen. -/
inductive Event
  | make (ch cap : Nat)
  | goConsume (ch : Nat)
  | StartGoroutines (ch : Nat)
  | StopGoroutines (name : String)
  | close (ch : Nat)
  | runtimePanic (msg : String)
  deriving DecidableEq, Repr

/-- Process state: the global `InputConsumers`, the channel heap and the trace. -/
structure World (I : Type) where
  InputConsumers : List (String × Consumer I)
  closed : List Nat
  nextChan : Nat
  trace : List Event
  panicked : Bool

/-- Everything the file calls but does not define. `Load` is
`multiconfig.DefaultLoader.Load` with the `RequiredValidator`; `InputCreators`
is the registry `inputs.InputCreators`; `TidyConfig` is the method of
`inputs.Input`. -/
structure Env (I : Type) where
  Join : String → String → String
  IsExist : String → Bool
  ParseBool : String → Except String Bool
  DirsUnder : String → Except String (List String)
  FilesUnder : String → Except String (List String)
  InputCreators : String → Option (Unit → I)
  Load : List Loader → I → I × Option String
  TidyConfig : I → I × Option String

/-- The process right after package initialisation: `InputConsumers` is the
empty map literal. -/
def World.init (I : Type) : World I :=
  { InputConsumers := [], closed := [], nextChan := 0, trace := [], panicked := false }

/-! ## Operations -/

/-- Function `NewAgent(configDir, debugMode)`. -/
def NewAgent {I : Type} (env : Env I) (configDir debugMode : String) : Except String Agent :=
  let configFile := env.Join configDir "config.toml"
  if !env.IsExist configFile then
    .error ("configuration file(" ++ configFile ++ ") not found")
  else
    match env.ParseBool debugMode with
    | .error err => .error ("failed to parse bool(" ++ debugMode ++ "): " ++ err)
    | .ok debug => .ok { ConfigDir := configDir, DebugMode := debug }

/-- Body of the loop `for i := 0; i < count; i++` of `getInputsByDirs`. -/
def getInputsStep (dirs : List String) (names : List String) (i : Nat) : List String :=
  if HasPrefix (dirs.getD i "") "input." then names ++ [sliceFrom (dirs.getD i "") 6] else names

/-- Method `(*Agent).getInputsByDirs`. -/
def getInputsByDirs {I : Type} (env : Env I) (a : Agent) : Except String (List String) :=
  match env.DirsUnder a.ConfigDir with
  | .error err => .error ("failed to get dirs under " ++ a.ConfigDir ++ " : " ++ err)
  | .ok dirs =>
    let count := dirs.length
    if count = 0 then .ok dirs
    else .ok ((List.range count).foldl (getInputsStep dirs) [])

/-- Body of the loop `for _, fpath := range files` of `loadConfigs`: three
independent `if` statements, each appending one loader. -/
def loadersStep {I : Type} (env : Env I) (configDir : String) (loaders : List Loader)
    (fpath : String) : List Loader :=
  let l1 := if HasSuffix fpath "toml" then
    loaders ++ [Loader.TOMLLoader (env.Join configDir fpath)] else loaders
  let l2 := if HasSuffix fpath "json" then
    l1 ++ [Loader.JSONLoader (env.Join configDir fpath)] else l1
  if HasSuffix fpath "yaml" then
    l2 ++ [Loader.YAMLLoader (env.Join configDir fpath)] else l2

/-- The slice `loaders` of `loadConfigs` when the loop over `files` ends. -/
def composeLoaders {I : Type} (env : Env I) (configDir : String) (files : List String) :
    List Loader :=
  files.foldl (loadersStep env configDir) [Loader.TagLoader, Loader.EnvironmentLoader]

/-- Function `loadConfigs(configDir, configPtr)`: the instance after loading and the
returned error. -/
def loadConfigs {I : Type} (env : Env I) (configDir : String) (configPtr : I) :
    I × Option String :=
  match env.FilesUnder configDir with
  | .error err => (configPtr, some ("failed to list files under: " ++ configDir ++ " : " ++ err))
  | .ok files => env.Load (composeLoaders env configDir files) configPtr

/-- Method `(*Consumer).Start`. -/
def Consumer.Start {I : Type} (c : Consumer I) (w : World I) : World I :=
  { w with trace := w.trace ++ [Event.goConsume c.Queue, Event.StartGoroutines c.Queue] }

/-- Body of the loop `for _, name := range names` of `startInputs`. The value
returned by `loadConfigs` is not inspected. -/
def startInputsStep {I : Type} (env : Env I) (a : Agent) (w : World I) (name : String) :
    World I :=
  match env.InputCreators name with
  | none => w
  | some creator =>
    let inst := creator ()
    let loaded := loadConfigs env (env.Join a.ConfigDir ("input." ++ name)) inst
    match env.TidyConfig loaded.1 with
    | (_, some _) => w
    | (tidied, none) =>
      let ch := w.nextChan
      let w1 : World I :=
        { w with nextChan := ch + 1, trace := w.trace ++ [Event.make ch 1000000] }
      let c : Consumer I := { Instance := tidied, Queue := ch }
      let w2 := c.Start w1
      { w2 with InputConsumers := mapSet w2.InputConsumers name c }

/-- Method `(*Agent).startInputs`: the new state and the returned error. -/
def startInputs {I : Type} (env : Env I) (a : Agent) (w : World I) :
    World I × Option String :=
  match getInputsByDirs env a with
  | .error err => (w, some err)
  | .ok names =>
    if names.length = 0 then (w, none)
    else (names.foldl (startInputsStep env a) w, none)

/-- Method `(*Agent).Start`: the error of `startInputs` is discarded. -/
def Start {I : Type} (env : Env I) (a : Agent) (w : World I) : World I :=
  (startInputs env a w).1

/-- Go `close(ch)`. -/
def closeChan {I : Type} (w : World I) (ch : Nat) : World I :=
  if ch ∈ w.closed then
    { w with panicked := true,
             trace := w.trace ++ [Event.runtimePanic "close of closed channel"] }
  else
    { w with closed := ch :: w.closed, trace := w.trace ++ [Event.close ch] }

/-- Body of the loop `for name := range InputConsumers` of `Stop`; a panic in
an earlier iteration ends the loop. -/
def stopStep {I : Type} (w : World I) (name : String) : World I :=
  if w.panicked then w
  else
    match mapGet w.InputConsumers name with
    | none =>
      { w with panicked := true,
               trace := w.trace ++ [Event.runtimePanic "nil pointer dereference"] }
    | some c =>
      closeChan { w with trace := w.trace ++ [Event.StopGoroutines name] } c.Queue

/-- Method `(*Agent).Stop`. -/
def Stop {I : Type} (_a : Agent) (w : World I) : World I :=
  (keys w.InputConsumers).foldl stopStep w

/-- Method `(*Agent).Reload`: `a.Stop()` then `a.Start()`; a panic in `Stop` unwinds
before `Start` runs. -/
def Reload {I : Type} (env : Env I) (a : Agent) (w : World I) : World I :=
  let w1 := Stop a w
  if w1.panicked then w1 else Start env a w1

/-- The exported lifecycle methods of `Agent`. -/
inductive Call
  | Start
  | Stop
  | Reload
  deriving DecidableEq, Repr

/-- One lifecycle call. -/
def call {I : Type} (env : Env I) (a : Agent) (c : Call) (w : World I) : World I :=
  match c with
  | Call.Start => Start env a w
  | Call.Stop => Stop a w
  | Call.Reload => Reload env a w

/-- A sequence of lifecycle calls made one after the other by a single control
path; nothing runs after a panic. -/
def run {I : Type} (env : Env I) (a : Agent) : List Call → World I → World I
  | [], w => w
  | c :: cs, w => if w.panicked then w else run env a cs (call env a c w)

/-- The events an operation added to the trace of `w`. -/
def emitted {I : Type} (w w1 : World I) : List Event := w1.trace.drop w.trace.length

/-- Whether the loop body of `startInputs` reaches `InputConsumers[name] = c`:
the name is in the registry and `TidyConfig` of the instance, after
`loadConfigs` ran on it, returns no error. -/
def activates {I : Type} (env : Env I) (a : Agent) (name : String) : Bool :=
  match env.InputCreators name with
  | none => false
  | some creator =>
    (env.TidyConfig
      (loadConfigs env (env.Join a.ConfigDir ("input." ++ name)) (creator ())).1).2.isNone

/-- The names the loop of `startInputs` inserts into the table: the
discovered names that activate (none when discovery fails). -/
def activated {I : Type} (env : Env I) (a : Agent) : List String :=
  match getInputsByDirs env a with
  | .ok names => names.filter (activates env a)
  | .error _ => []

/-! ## A concrete environment for examples -/

/-- Go `strconv.ParseBool`. -/
def goParseBool (s : String) : Except String Bool :=
  if s ∈ ["1", "t", "T", "TRUE", "true", "True"] then .ok true
  else if s ∈ ["0", "f", "F", "FALSE", "false", "False"] then .ok false
  else .error "invalid syntax"

/-- An environment over plugin instances that are just their own name: the
root lists `dirs`, every plugin directory lists `files`, the registry holds the
names in `registered`, loading fails for the names in `loadFailing` and
`TidyConfig` fails for the names in `tidyFailing`. Only the path
`conf/config.toml` exists. -/
def demoEnv (dirs : Except String (List String)) (files : List String)
    (registered loadFailing tidyFailing : List String) : Env String :=
  { Join := fun d f => d ++ "/" ++ f
    IsExist := fun p => decide (p = "conf/config.toml")
    ParseBool := goParseBool
    DirsUnder := fun _ => dirs
    FilesUnder := fun _ => .ok files
    InputCreators := fun name => if name ∈ registered then some (fun _ => name) else none
    Load := fun _ inst =>
      (inst, if inst ∈ loadFailing then some "required field missing" else none)
    TidyConfig := fun inst =>
      (inst, if inst ∈ tidyFailing then some "invalid configuration" else none) }

/-- The agent `NewAgent("conf", "false")` returns. -/
def demoAgent : Agent := { ConfigDir := "conf", DebugMode := false }

/-- The root holds `input.redis` and `input.mysql`; both plugins are registered
and configure without error. -/
def twoPluginEnv : Env String :=
  demoEnv (.ok ["input.redis", "input.mysql"]) [] ["redis", "mysql"] [] []

/-- The root holds `input.redis`; the plugin is registered and configures
without error. -/
def redisEnv : Env String := demoEnv (.ok ["input.redis"]) [] ["redis"] [] []

/-- The root of `redisEnv` after the directory `input.redis` was removed. -/
def emptyRootEnv : Env String := demoEnv (.ok []) [] ["redis"] [] []

/-- The root holds `input.redis`; `loadConfigs` returns an error for it and its
`TidyConfig` returns none. -/
def loadFailingEnv : Env String := demoEnv (.ok ["input.redis"]) [] ["redis"] ["redis"] []

/-- A table in which the entries `a` and `b` hold the same open queue. -/
def sharedQueueWorld : World String :=
  { InputConsumers := [("a", { Instance := "a", Queue := 0 }),
      ("b", { Instance := "b", Queue := 0 })]
    closed := []
    nextChan := 1
    trace := []
    panicked := false }

/-! ## The loader sequence as the specification words it -/

/-- The characters after the last dot of a name, if it has a dot. -/
def extAfterLastDot : List Char → Option (List Char)
  | [] => none
  | c :: cs =>
    match extAfterLastDot cs with
    | some e => some e
    | none => if c = '.' then some cs else none

/-- The extension of a file name: what follows its last dot. -/
def fileExt (name : String) : Option String := (extAfterLastDot name.data).map String.mk

/-- The file loader the specification gives a file: the parser of its
extension when that is `toml`, `json` or `yaml`, none otherwise. -/
def specFileLoader {I : Type} (env : Env I) (configDir name : String) : Option Loader :=
  if fileExt name = some "toml" then some (Loader.TOMLLoader (env.Join configDir name))
  else if fileExt name = some "json" then some (Loader.JSONLoader (env.Join configDir name))
  else if fileExt name = some "yaml" then some (Loader.YAMLLoader (env.Join configDir name))
  else none

/-- The loader sequence the specification describes: tag defaults, environment,
then one loader per file with a recognised extension, in listing order. -/
def specLoaders {I : Type} (env : Env I) (configDir : String) (files : List String) :
    List Loader :=
  [Loader.TagLoader, Loader.EnvironmentLoader] ++ files.filterMap (specFileLoader env configDir)

/-- The file loader keyed by the last four characters of the name: the name
ends in `toml`, `json` or `yaml`, with or without a dot before them. -/
def suffixFileLoader {I : Type} (env : Env I) (configDir name : String) : Option Loader :=
  if HasSuffix name "toml" then some (Loader.TOMLLoader (env.Join configDir name))
  else if HasSuffix name "json" then some (Loader.JSONLoader (env.Join configDir name))
  else if HasSuffix name "yaml" then some (Loader.YAMLLoader (env.Join configDir name))
  else none

/-! ## The overlay of configuration sources as the specification words it -/

/-- Modelled from the spec: one source laid over a configuration, field by
field ("later sources override earlier ones field-by-field"). The library
`multiconfig` that does this is not part of the repository. A configuration is
seen as its fields; `src` gives the fields the source sets. -/
def overlay (cfg src : String → Option String) : String → Option String :=
  fun k =>
    match src k with
    | some v => some v
    | none => cfg k

/-- Modelled from the spec: the composed loader of `multiconfig` applies its
loaders in sequence order, each laid over the result of the ones before
("composes, in increasing precedence order"); `content l` gives the fields the
loader `l` sets. -/
def applyLoaders (content : Loader → String → Option String) (loaders : List Loader)
    (cfg : String → Option String) : String → Option String :=
  loaders.foldl (fun c l => overlay c (content l)) cfg

/-- The files `a.toml` and `b.json` of `conf/input.redis` both set the field
`address`, to different values. -/
def demoContent (l : Loader) (k : String) : Option String :=
  if l = Loader.TOMLLoader "conf/input.redis/a.toml" ∧ k = "address" then
    some "127.0.0.1:6379"
  else if l = Loader.JSONLoader "conf/input.redis/b.json" ∧ k = "address" then
    some "10.0.0.1:6379"
  else none

/-- An environment over configurations that are their own fields: every plugin
directory lists `a.toml` then `b.json`, and loading overlays `demoContent`. -/
def overlayEnv : Env (String → Option String) :=
  { Join := fun d f => d ++ "/" ++ f
    IsExist := fun p => decide (p = "conf/config.toml")
    ParseBool := goParseBool
    DirsUnder := fun _ => .ok ["input.redis"]
    FilesUnder := fun _ => .ok ["a.toml", "b.json"]
    InputCreators := fun name => if name = "redis" then some (fun _ _ => none) else none
    Load := fun loaders cfg => (applyLoaders demoContent loaders cfg, none)
    TidyConfig := fun cfg => (cfg, none) }

/-! ## The contract of `Stop` as the specification words it -/

/-- The events `Stop` performs for one table entry, in order. -/
def stopEvents {I : Type} (e : String × Consumer I) : List Event :=
  [Event.StopGoroutines e.1, Event.close e.2.Queue]

/-- What the specification asks of the events `evs` that `Stop` performed on
the table `m`: for each entry exactly one stop invocation and exactly one close
of its queue, the stop before the close; and no close of a queue before the
stop of an entry owning it. -/
def StopContract {I : Type} (m : List (String × Consumer I)) (evs : List Event) : Prop :=
  (∀ e ∈ m, evs.count (Event.StopGoroutines e.1) = 1
      ∧ evs.count (Event.close e.2.Queue) = 1
      ∧ ∃ pre post : List Event,
          evs = pre ++ Event.close e.2.Queue :: post ∧ Event.StopGoroutines e.1 ∈ pre)
  ∧ (∀ (pre post : List Event) (q : Nat), evs = pre ++ Event.close q :: post →
      ∃ e ∈ m, e.2.Queue = q ∧ Event.StopGoroutines e.1 ∈ pre)

/-- The queue of the entry `name` of a table (0 when there is none). -/
def queueOf {I : Type} (m : List (String × Consumer I)) (name : String) : Nat :=
  match mapGet m name with
  | some c => c.Queue
  | none => 0

/-! ## Discovery -/

/-- The index loop of `getInputsByDirs` computes a filter followed by a map. -/
theorem getInputs_loop (dirs : List String) :
    (List.range dirs.length).foldl (getInputsStep dirs) [] =
      (dirs.filter (fun d => HasPrefix d "input.")).map (fun d => sliceFrom d 6) := by
  induction dirs using List.reverseRecOn with
  | nil => rfl
  | append_singleton init x ih =>
    have hstep : (List.range init.length).foldl (getInputsStep (init ++ [x])) [] =
        (List.range init.length).foldl (getInputsStep init) [] := by
      apply List.foldl_ext
      intro acc i hi
      have hlt : i < init.length := List.mem_range.mp hi
      have hg : (init ++ [x]).getD i "" = init.getD i "" := List.getD_append _ _ _ _ hlt
      simp only [getInputsStep, hg]
    rw [List.length_append, List.length_singleton, List.range_succ, List.foldl_append, hstep, ih]
    simp only [List.foldl_cons, List.foldl_nil, getInputsStep, List.filter_append, List.map_append]
    have hx : (init ++ [x]).getD init.length "" = x := by simp
    rw [hx]
    by_cases hp : HasPrefix x "input." = true
    · simp [hp, List.filter_cons]
    · simp [hp, List.filter_cons]

/-- The test `HasPrefix d pre` holds exactly when `d` is `pre` followed by something. -/
theorem hasPrefix_iff (d pre : String) :
    HasPrefix d pre = true ↔ ∃ r : String, d = pre ++ r := by
  unfold HasPrefix
  rw [List.isPrefixOf_iff_prefix]
  constructor
  · rintro ⟨t, ht⟩
    exact ⟨⟨t⟩, by apply String.ext; simp [ht]⟩
  · rintro ⟨r, rfl⟩
    exact ⟨r.data, by simp⟩

/-- Slicing off the length of a prefix leaves the rest. -/
theorem sliceFrom_append (pre r : String) : sliceFrom (pre ++ r) pre.data.length = r := by
  apply String.ext
  simp [sliceFrom]

/-- What `getInputsByDirs` returns on a listing. -/
theorem getInputsByDirs_eq {I : Type} (env : Env I) (a : Agent) (dirs : List String)
    (h : env.DirsUnder a.ConfigDir = .ok dirs) :
    getInputsByDirs env a =
      .ok ((dirs.filter (fun d => HasPrefix d "input.")).map (fun d => sliceFrom d 6)) := by
  unfold getInputsByDirs
  rw [h]
  by_cases h0 : dirs.length = 0
  · have hnil : dirs = [] := List.length_eq_zero.mp h0
    subst hnil
    rfl
  · simp only [h0, if_false]
    rw [getInputs_loop]

/-- C1: whenever the listing of the configuration root succeeds,
`getInputsByDirs` returns without error exactly the listing filtered to the
entries that start with `input.`, in listing order, each with those six
characters removed (an entry `input.` followed by `r` yields `r`); a listing
that is empty or has no such entry yields the empty sequence. -/
theorem getInputsByDirs_filters_and_strips {I : Type} (env : Env I) (a : Agent)
    (dirs : List String) (h : env.DirsUnder a.ConfigDir = .ok dirs) :
    getInputsByDirs env a =
        .ok ((dirs.filter (fun d => HasPrefix d "input.")).map (fun d => sliceFrom d 6))
      ∧ (∀ d : String, HasPrefix d "input." = true ↔ ∃ r : String, d = "input." ++ r)
      ∧ (∀ r : String, sliceFrom ("input." ++ r) 6 = r)
      ∧ ((∀ d ∈ dirs, HasPrefix d "input." = false) → getInputsByDirs env a = .ok []) := by
  refine ⟨getInputsByDirs_eq env a dirs h, fun d => hasPrefix_iff d "input.",
    fun r => sliceFrom_append "input." r, ?_⟩
  intro hnone
  rw [getInputsByDirs_eq env a dirs h]
  have hf : dirs.filter (fun d => HasPrefix d "input.") = [] := by
    rw [List.filter_eq_nil_iff]
    intro d hd
    simp [hnone d hd]
  rw [hf]
  rfl

/-- C1 at the listing `input.redis`, `logs`, `input.mysql`. -/
theorem getInputsByDirs_filters_and_strips_witness :
    (demoEnv (.ok ["input.redis", "logs", "input.mysql"]) [] [] [] []).DirsUnder
        demoAgent.ConfigDir = .ok ["input.redis", "logs", "input.mysql"]
      ∧ getInputsByDirs (demoEnv (.ok ["input.redis", "logs", "input.mysql"]) [] [] [] [])
          demoAgent = .ok ["redis", "mysql"] :=
  ⟨rfl, (getInputsByDirs_filters_and_strips
    (demoEnv (.ok ["input.redis", "logs", "input.mysql"]) [] [] [] []) demoAgent
    ["input.redis", "logs", "input.mysql"] rfl).1.trans (congrArg Except.ok (by decide))⟩

/-! ## Activation -/

/-- Keys after a map assignment: the old keys and the assigned one. -/
theorem mem_keys_mapSet {V : Type} (m : List (String × V)) (k n : String) (v : V) :
    n ∈ keys (mapSet m k v) ↔ n ∈ keys m ∨ n = k := by
  induction m with
  | nil => simp [mapSet, keys]
  | cons e rest ih =>
    obtain ⟨k0, x⟩ := e
    unfold mapSet
    by_cases hk : k0 = k
    · subst hk
      simp [keys]
      tauto
    · simp only [hk, if_false]
      simp only [keys, List.map_cons, List.mem_cons] at ih ⊢
      rw [ih]
      tauto

/-- A map assignment does not change the entry of another key. -/
theorem mapGet_mapSet_ne {V : Type} (m : List (String × V)) (k n : String) (v : V)
    (hne : k ≠ n) : mapGet (mapSet m k v) n = mapGet m n := by
  induction m with
  | nil => simp [mapSet, mapGet, hne]
  | cons e rest ih =>
    obtain ⟨k0, x⟩ := e
    unfold mapSet
    by_cases hk : k0 = k
    · subst hk
      simp [mapGet, hne]
    · simp only [hk, if_false]
      simp only [mapGet, ih]

/-- The two outcomes of the loop body of `startInputs`: the state is
untouched, or a fresh queue is made, the Consumer started and the name
assigned in the table. -/
theorem startInputsStep_cases {I : Type} (env : Env I) (a : Agent) (w : World I)
    (name : String) :
    (activates env a name = false ∧ startInputsStep env a w name = w)
    ∨ (activates env a name = true ∧ ∃ c : Consumer I, c.Queue = w.nextChan ∧
        startInputsStep env a w name =
          { InputConsumers := mapSet w.InputConsumers name c
            closed := w.closed
            nextChan := w.nextChan + 1
            trace := w.trace ++ [Event.make w.nextChan 1000000, Event.goConsume w.nextChan,
              Event.StartGoroutines w.nextChan]
            panicked := w.panicked }) := by
  unfold startInputsStep activates
  cases hc : env.InputCreators name with
  | none => left; simp
  | some creator =>
    simp only
    rcases ht : env.TidyConfig
      (loadConfigs env (env.Join a.ConfigDir ("input." ++ name)) (creator ())).1 with ⟨t, e⟩
    cases e with
    | some err => left; simp
    | none =>
      right
      refine ⟨rfl, ⟨t, w.nextChan⟩, rfl, ?_⟩
      simp [Consumer.Start]


/-- Keys after one pass of the loop body of `startInputs`. -/
theorem startInputsStep_keys {I : Type} (env : Env I) (a : Agent) (w : World I)
    (name n : String) :
    n ∈ keys (startInputsStep env a w name).InputConsumers ↔
      n ∈ keys w.InputConsumers ∨ (n = name ∧ activates env a name = true) := by
  rcases startInputsStep_cases env a w name with ⟨hf, hw⟩ | ⟨ht, c, _, hw⟩
  · rw [hw]; simp [hf]
  · rw [hw]; simp [ht, mem_keys_mapSet]

/-- One pass of the loop body of `startInputs` leaves the entry of a name that
does not activate as it was. -/
theorem startInputsStep_get {I : Type} (env : Env I) (a : Agent) (w : World I)
    (name n : String) (hn : activates env a n = false) :
    mapGet (startInputsStep env a w name).InputConsumers n = mapGet w.InputConsumers n := by
  rcases startInputsStep_cases env a w name with ⟨_, hw⟩ | ⟨ht, c, _, hw⟩
  · rw [hw]
  · rw [hw]
    apply mapGet_mapSet_ne
    rintro rfl
    rw [hn] at ht
    exact Bool.noConfusion ht

/-- One pass of the loop body of `startInputs` does not touch the panic flag. -/
theorem startInputsStep_panicked {I : Type} (env : Env I) (a : Agent) (w : World I)
    (name : String) : (startInputsStep env a w name).panicked = w.panicked := by
  rcases startInputsStep_cases env a w name with ⟨_, hw⟩ | ⟨_, c, _, hw⟩ <;> rw [hw]

/-- Keys after the loop of `startInputs`: the keys before, and the discovered
names that activate. -/
theorem startLoop_keys {I : Type} (env : Env I) (a : Agent) (names : List String)
    (w : World I) (n : String) :
    n ∈ keys (names.foldl (startInputsStep env a) w).InputConsumers ↔
      n ∈ keys w.InputConsumers ∨ (n ∈ names ∧ activates env a n = true) := by
  induction names generalizing w with
  | nil => simp
  | cons x xs ih =>
    rw [List.foldl_cons, ih, startInputsStep_keys]
    constructor
    · rintro ((h | ⟨rfl, h⟩) | ⟨h1, h2⟩)
      · exact Or.inl h
      · exact Or.inr ⟨List.mem_cons_self _ _, h⟩
      · exact Or.inr ⟨List.mem_cons_of_mem _ h1, h2⟩
    · rintro (h | ⟨h1, h2⟩)
      · exact Or.inl (Or.inl h)
      · rcases List.mem_cons.mp h1 with rfl | h1
        · exact Or.inl (Or.inr ⟨rfl, h2⟩)
        · exact Or.inr ⟨h1, h2⟩

/-- The loop of `startInputs` leaves the entry of a name that does not
activate as it was. -/
theorem startLoop_get {I : Type} (env : Env I) (a : Agent) (names : List String)
    (w : World I) (n : String) (hn : activates env a n = false) :
    mapGet (names.foldl (startInputsStep env a) w).InputConsumers n =
      mapGet w.InputConsumers n := by
  induction names generalizing w with
  | nil => rfl
  | cons x xs ih => rw [List.foldl_cons, ih, startInputsStep_get env a w x n hn]

/-- The loop of `startInputs` does not touch the panic flag. -/
theorem startLoop_panicked {I : Type} (env : Env I) (a : Agent) (names : List String)
    (w : World I) : (names.foldl (startInputsStep env a) w).panicked = w.panicked := by
  induction names generalizing w with
  | nil => rfl
  | cons x xs ih => rw [List.foldl_cons, ih, startInputsStep_panicked]

/-- When discovery succeeds, `startInputs` is its loop and returns no error
(the early return on an empty list is the loop over no names). -/
theorem startInputs_ok {I : Type} (env : Env I) (a : Agent) (w : World I)
    (names : List String) (h : getInputsByDirs env a = .ok names) :
    startInputs env a w = (names.foldl (startInputsStep env a) w, none) := by
  unfold startInputs
  rw [h]
  by_cases h0 : names.length = 0
  · have hnil : names = [] := List.length_eq_zero.mp h0
    subst hnil
    rfl
  · simp only [h0, if_false]

/-- C2: when discovery returns `names`, `startInputs` returns no error, leaves
the table entry of every name absent from the registry as it was (such a name
is never inserted), and every discovered name that is in the registry and whose
`TidyConfig` returns no error is a key of the table afterwards, whatever other
names were discovered. -/
theorem startInputs_skips_unregistered {I : Type} (env : Env I) (a : Agent) (w : World I)
    (names : List String) (h : getInputsByDirs env a = .ok names) :
    (startInputs env a w).2 = none
      ∧ (∀ n : String, env.InputCreators n = none →
          mapGet (startInputs env a w).1.InputConsumers n = mapGet w.InputConsumers n)
      ∧ (∀ n ∈ names, ∀ creator : Unit → I, env.InputCreators n = some creator →
          (env.TidyConfig (loadConfigs env (env.Join a.ConfigDir ("input." ++ n))
            (creator ())).1).2 = none →
          n ∈ keys (startInputs env a w).1.InputConsumers) := by
  rw [startInputs_ok env a w names h]
  refine ⟨rfl, ?_, ?_⟩
  · intro n hn
    apply startLoop_get
    simp [activates, hn]
  · intro n hmem creator hc ht
    apply (startLoop_keys env a names w n).mpr
    right
    refine ⟨hmem, ?_⟩
    simp [activates, hc, ht]

/-- C2 at a root with `input.redis`, `input.ghost`, `input.mysql` where `ghost` is not
registered. -/
theorem startInputs_skips_unregistered_witness :
    getInputsByDirs (demoEnv (.ok ["input.redis", "input.ghost", "input.mysql"]) []
        ["redis", "mysql"] [] []) demoAgent = .ok ["redis", "ghost", "mysql"]
      ∧ keys (startInputs (demoEnv (.ok ["input.redis", "input.ghost", "input.mysql"]) []
          ["redis", "mysql"] [] []) demoAgent (World.init String)).1.InputConsumers
          = ["redis", "mysql"]
      ∧ (startInputs (demoEnv (.ok ["input.redis", "input.ghost", "input.mysql"]) []
          ["redis", "mysql"] [] []) demoAgent (World.init String)).2 = none :=
  ⟨congrArg Except.ok (by decide), by decide,
    (startInputs_skips_unregistered
      (demoEnv (.ok ["input.redis", "input.ghost", "input.mysql"]) [] ["redis", "mysql"] [] [])
      demoAgent (World.init String) ["redis", "ghost", "mysql"]
      (congrArg Except.ok (by decide))).1⟩

/-- With no entry of the listing starting with `input.`, discovery returns the
empty sequence. -/
theorem getInputsByDirs_none {I : Type} (env : Env I) (a : Agent) (dirs : List String)
    (h : env.DirsUnder a.ConfigDir = .ok dirs)
    (hnone : ∀ d ∈ dirs, HasPrefix d "input." = false) :
    getInputsByDirs env a = .ok [] := by
  rw [getInputsByDirs_eq env a dirs h]
  have hf : dirs.filter (fun d => HasPrefix d "input.") = [] := by
    rw [List.filter_eq_nil_iff]
    intro d hd
    simp [hnone d hd]
  rw [hf]
  rfl

/-- C9: when the listing of the root succeeds and no entry starts with
`input.`, and the table is empty, `startInputs` returns no error and `Start`
leaves the table empty, emits no event (no `make`, no Consumer start) and hands
out no channel identity. -/
theorem start_without_input_dirs {I : Type} (env : Env I) (a : Agent) (w : World I)
    (dirs : List String) (h : env.DirsUnder a.ConfigDir = .ok dirs)
    (hnone : ∀ d ∈ dirs, HasPrefix d "input." = false)
    (hempty : w.InputConsumers = []) :
    (startInputs env a w).2 = none
      ∧ (Start env a w).InputConsumers = []
      ∧ emitted w (Start env a w) = []
      ∧ (Start env a w).nextChan = w.nextChan := by
  have hs : startInputs env a w = (w, none) := by
    rw [startInputs_ok env a w [] (getInputsByDirs_none env a dirs h hnone)]
    rfl
  unfold Start
  rw [hs]
  exact ⟨rfl, hempty, by simp [emitted], rfl⟩

/-- C9 at a root that holds only `logs` and `scripts`. -/
theorem start_without_input_dirs_witness :
    (demoEnv (.ok ["logs", "scripts"]) [] ["redis"] [] []).DirsUnder demoAgent.ConfigDir
        = .ok ["logs", "scripts"]
      ∧ (∀ d ∈ ["logs", "scripts"], HasPrefix d "input." = false)
      ∧ (World.init String).InputConsumers = []
      ∧ (Start (demoEnv (.ok ["logs", "scripts"]) [] ["redis"] [] []) demoAgent
          (World.init String)).InputConsumers = [] :=
  ⟨rfl, by decide, rfl,
    (start_without_input_dirs (demoEnv (.ok ["logs", "scripts"]) [] ["redis"] [] [])
      demoAgent (World.init String) ["logs", "scripts"] rfl (by decide) rfl).2.1⟩

/-! ## Construction -/

/-- C6: `NewAgent` returns an error exactly when `configDir` joined with
`config.toml` does not exist or `debugMode` does not parse as a boolean; when
it returns an agent, that agent has `ConfigDir` equal to `configDir` and
`DebugMode` equal to the parsed value of `debugMode`. -/
theorem NewAgent_fails_iff {I : Type} (env : Env I) (configDir debugMode : String) :
    ((∃ msg : String, NewAgent env configDir debugMode = .error msg) ↔
        (env.IsExist (env.Join configDir "config.toml") = false
          ∨ ∃ e : String, env.ParseBool debugMode = .error e))
      ∧ (∀ ag : Agent, NewAgent env configDir debugMode = .ok ag →
          ag.ConfigDir = configDir ∧ env.ParseBool debugMode = .ok ag.DebugMode) := by
  unfold NewAgent
  cases hex : env.IsExist (env.Join configDir "config.toml") with
  | false => simp [hex]
  | true =>
    cases hp : env.ParseBool debugMode with
    | error e => simp [hex]
    | ok b =>
      simp only [hex, Bool.not_true, Bool.false_eq_true, if_false, false_or]
      constructor
      · constructor
        · rintro ⟨msg, hm⟩
          cases hm
        · rintro (h | ⟨e, he⟩)
          · cases h
          · cases he
      · intro ag hag
        cases hag
        exact ⟨rfl, rfl⟩

/-- C6 at `NewAgent("conf", "true")`, which succeeds, and at `NewAgent("conf", "yes")`,
which fails. -/
theorem NewAgent_fails_iff_witness :
    NewAgent (demoEnv (.ok []) [] [] [] []) "conf" "true"
        = .ok { ConfigDir := "conf", DebugMode := true }
      ∧ (demoEnv (.ok []) [] [] [] []).ParseBool "true" = .ok true
      ∧ ∃ msg : String, NewAgent (demoEnv (.ok []) [] [] [] []) "conf" "yes" = .error msg :=
  ⟨rfl,
    ((NewAgent_fails_iff (demoEnv (.ok []) [] [] [] []) "conf" "true").2
      { ConfigDir := "conf", DebugMode := true } rfl).2,
    (NewAgent_fails_iff (demoEnv (.ok []) [] [] [] []) "conf" "yes").1.mpr
      (Or.inr ⟨"invalid syntax", rfl⟩)⟩

/-! ## Configuration loading -/

/-- Two suffixes of one string that have the same length are equal. -/
theorem hasSuffix_unique (s x y : String) (hx : HasSuffix s x = true)
    (hy : HasSuffix s y = true) (hlen : x.data.length = y.data.length) : x = y := by
  unfold HasSuffix at hx hy
  rw [List.isSuffixOf_iff_suffix] at hx hy
  apply String.ext
  rcases List.suffix_or_suffix_of_suffix hx hy with h | h
  · exact h.eq_of_length hlen
  · exact (h.eq_of_length hlen.symm).symm

/-- One pass of the loop body of `loadConfigs` appends the loader chosen by
the suffix of the file name, if any. -/
theorem loadersStep_eq {I : Type} (env : Env I) (configDir : String) (acc : List Loader)
    (fpath : String) :
    loadersStep env configDir acc fpath =
      acc ++ (suffixFileLoader env configDir fpath).toList := by
  unfold loadersStep suffixFileLoader
  by_cases ht : HasSuffix fpath "toml" = true
  · have hj : HasSuffix fpath "json" = false := by
      cases hj : HasSuffix fpath "json" with
      | false => rfl
      | true => exact absurd (hasSuffix_unique fpath "toml" "json" ht hj rfl) (by decide)
    have hy : HasSuffix fpath "yaml" = false := by
      cases hy : HasSuffix fpath "yaml" with
      | false => rfl
      | true => exact absurd (hasSuffix_unique fpath "toml" "yaml" ht hy rfl) (by decide)
    simp [ht, hj, hy]
  · by_cases hj : HasSuffix fpath "json" = true
    · have hy : HasSuffix fpath "yaml" = false := by
        cases hy : HasSuffix fpath "yaml" with
        | false => rfl
        | true => exact absurd (hasSuffix_unique fpath "json" "yaml" hj hy rfl) (by decide)
      simp [ht, hj, hy]
    · by_cases hy : HasSuffix fpath "yaml" = true
      · simp [ht, hj, hy]
      · simp [ht, hj, hy]

/-- The loop of `loadConfigs` from any starting slice. -/
theorem loaders_loop {I : Type} (env : Env I) (configDir : String) (files : List String)
    (acc : List Loader) :
    files.foldl (loadersStep env configDir) acc =
      acc ++ files.filterMap (suffixFileLoader env configDir) := by
  induction files generalizing acc with
  | nil => simp
  | cons f fs ih =>
    rw [List.foldl_cons, ih, loadersStep_eq]
    cases hf : suffixFileLoader env configDir f with
    | none => simp [List.filterMap_cons, hf]
    | some l => simp [List.filterMap_cons, hf]

/-- What follows the last dot is a suffix of the name. -/
theorem extAfterLastDot_suffix (cs e : List Char) (h : extAfterLastDot cs = some e) :
    e <:+ cs := by
  induction cs with
  | nil => simp [extAfterLastDot] at h
  | cons c cs ih =>
    unfold extAfterLastDot at h
    cases hr : extAfterLastDot cs with
    | some e1 =>
      rw [hr] at h
      simp only [Option.some.injEq] at h
      subst h
      exact (ih hr).trans (List.suffix_cons c cs)
    | none =>
      rw [hr] at h
      by_cases hc : c = '.'
      · simp only [hc, if_true, Option.some.injEq] at h
        rw [← h]
        exact List.suffix_cons c cs
      · simp [hc] at h

/-- A name ends with its extension. -/
theorem hasSuffix_of_fileExt (name e : String) (h : fileExt name = some e) :
    HasSuffix name e = true := by
  unfold fileExt at h
  cases hx : extAfterLastDot name.data with
  | none => simp [hx] at h
  | some cs =>
    rw [hx] at h
    simp only [Option.map_some', Option.some.injEq] at h
    subst h
    unfold HasSuffix
    rw [List.isSuffixOf_iff_suffix]
    exact extAfterLastDot_suffix name.data cs hx

/-- A file loader the specification assigns is the one the code appends. -/
theorem suffixFileLoader_of_spec {I : Type} (env : Env I) (configDir name : String)
    (l : Loader) (h : specFileLoader env configDir name = some l) :
    suffixFileLoader env configDir name = some l := by
  unfold specFileLoader at h
  unfold suffixFileLoader
  by_cases ht : fileExt name = some "toml"
  · have hs := hasSuffix_of_fileExt name "toml" ht
    simp only [ht, if_true] at h
    simp [hs, ← h]
  · by_cases hj : fileExt name = some "json"
    · have hs := hasSuffix_of_fileExt name "json" hj
      have hnt : HasSuffix name "toml" = false := by
        cases hq : HasSuffix name "toml" with
        | false => rfl
        | true => exact absurd (hasSuffix_unique name "toml" "json" hq hs rfl) (by decide)
      simp only [ht, hj, if_true, if_false] at h
      simp [hs, hnt, ← h]
    · by_cases hy : fileExt name = some "yaml"
      · have hs := hasSuffix_of_fileExt name "yaml" hy
        have hnt : HasSuffix name "toml" = false := by
          cases hq : HasSuffix name "toml" with
          | false => rfl
          | true => exact absurd (hasSuffix_unique name "toml" "yaml" hq hs rfl) (by decide)
        have hnj : HasSuffix name "json" = false := by
          cases hq : HasSuffix name "json" with
          | false => rfl
          | true => exact absurd (hasSuffix_unique name "json" "yaml" hq hs rfl) (by decide)
        simp only [ht, hj, hy, if_true, if_false] at h
        simp [hs, hnt, hnj, ← h]
      · simp [ht, hj, hy] at h

/-- C7 as stated fails: the file `notes.mytoml` has the extension `mytoml`,
which is not a recognised one, yet `loadConfigs` composes a TOML loader for
it. -/
theorem composeLoaders_not_by_extension :
    fileExt "notes.mytoml" = some "mytoml"
      ∧ specLoaders (demoEnv (.ok []) [] [] [] []) "conf/input.redis" ["notes.mytoml"]
          = [Loader.TagLoader, Loader.EnvironmentLoader]
      ∧ composeLoaders (demoEnv (.ok []) [] [] [] []) "conf/input.redis" ["notes.mytoml"]
          = [Loader.TagLoader, Loader.EnvironmentLoader,
              Loader.TOMLLoader "conf/input.redis/notes.mytoml"]
      ∧ composeLoaders (demoEnv (.ok []) [] [] [] []) "conf/input.redis" ["notes.mytoml"]
          ≠ specLoaders (demoEnv (.ok []) [] [] [] []) "conf/input.redis" ["notes.mytoml"] := by
  decide

/-- Loaders that do not set a field leave it as it was. -/
theorem applyLoaders_unset (content : Loader → String → Option String)
    (loaders : List Loader) (cfg : String → Option String) (k : String)
    (h : ∀ l ∈ loaders, content l k = none) :
    applyLoaders content loaders cfg k = cfg k := by
  unfold applyLoaders
  induction loaders generalizing cfg with
  | nil => rfl
  | cons l ls ih =>
    rw [List.foldl_cons, ih _ (fun x hx => h x (List.mem_cons_of_mem _ hx))]
    simp [overlay, h l (List.mem_cons_self _ _)]

/-- A field set by a loader, and by none after it in the sequence, ends with
the value of that loader. -/
theorem applyLoaders_last (content : Loader → String → Option String)
    (before after : List Loader) (l : Loader) (cfg : String → Option String)
    (k v : String) (hl : content l k = some v)
    (hafter : ∀ x ∈ after, content x k = none) :
    applyLoaders content (before ++ l :: after) cfg k = some v := by
  have hsplit : applyLoaders content (before ++ l :: after) cfg =
      applyLoaders content after (overlay (applyLoaders content before cfg) (content l)) := by
    simp [applyLoaders, List.foldl_append]
  rw [hsplit, applyLoaders_unset content after _ k hafter]
  simp [overlay, hl]

/-- The file loaders of the files after a given one, none of which sets the
field. -/
theorem suffixLoaders_unset {I : Type} (env : Env I) (configDir : String)
    (content : Loader → String → Option String) (post : List String) (k : String)
    (h : ∀ g ∈ post, ∀ lg : Loader, suffixFileLoader env configDir g = some lg →
      content lg k = none) :
    ∀ x ∈ post.filterMap (suffixFileLoader env configDir), content x k = none := by
  intro x hx
  obtain ⟨g, hg, hgx⟩ := List.mem_filterMap.mp hx
  exact h g hg x hgx

/-- C7, amended: for every list of file names, the loader sequence composed by
`loadConfigs` is the tag-defaults loader, the environment loader and then, in
listing order, exactly one file loader for each file whose name ends in `toml`,
`json` or `yaml` (so for every file whose extension is one of them), of the
matching parser kind and with the path of `configDir` joined with the name; a
file whose name ends in none of the three contributes no loader. Hence when
two files set the same field the later one in listing order wins: the
configuration `loadConfigs` leaves has, for a field, the value of the last file
in the listing that sets it (the loader of `multiconfig`, which is outside the
repository, being the field-by-field overlay in sequence order that the
specification describes). -/
theorem composeLoaders_by_suffix {I : Type} (env : Env I) (configDir : String)
    (files : List String) :
    composeLoaders env configDir files =
        [Loader.TagLoader, Loader.EnvironmentLoader]
          ++ files.filterMap (suffixFileLoader env configDir)
      ∧ (∀ name : String, ∀ l : Loader, specFileLoader env configDir name = some l →
          suffixFileLoader env configDir name = some l)
      ∧ (∀ name : String, HasSuffix name "toml" = false → HasSuffix name "json" = false →
          HasSuffix name "yaml" = false → suffixFileLoader env configDir name = none)
      ∧ (∀ (fields : I → String → Option String)
          (content : Loader → String → Option String),
          (∀ (loaders : List Loader) (cfg : I),
            fields (env.Load loaders cfg).1 = applyLoaders content loaders (fields cfg)) →
          ∀ (pre post : List String) (f : String) (l : Loader) (k v : String) (cfg : I),
            files = pre ++ f :: post →
            env.FilesUnder configDir = .ok files →
            suffixFileLoader env configDir f = some l →
            content l k = some v →
            (∀ g ∈ post, ∀ lg : Loader, suffixFileLoader env configDir g = some lg →
              content lg k = none) →
            fields (loadConfigs env configDir cfg).1 k = some v) := by
  refine ⟨loaders_loop env configDir files _, suffixFileLoader_of_spec env configDir, ?_, ?_⟩
  · intro name ht hj hy
    simp [suffixFileLoader, ht, hj, hy]
  · intro fields content hload pre post f l k v cfg hfiles hlist hl hv hpost
    have hloaders : composeLoaders env configDir files =
        ([Loader.TagLoader, Loader.EnvironmentLoader]
            ++ pre.filterMap (suffixFileLoader env configDir))
          ++ l :: post.filterMap (suffixFileLoader env configDir) := by
      rw [composeLoaders, loaders_loop, hfiles, List.filterMap_append, List.filterMap_cons, hl]
      simp
    unfold loadConfigs
    rw [hlist]
    simp only
    rw [hload, hloaders]
    exact applyLoaders_last content _ _ l (fields cfg) k v hv
      (suffixLoaders_unset env configDir content post k hpost)

/-- C7, amended, at the listing `a.toml`, `README.md`, `b.json`; and at a
plugin directory listing `a.toml` then `b.json`, which both set `address`: the
loaded configuration has the value of `b.json`. -/
theorem composeLoaders_by_suffix_witness :
    composeLoaders (demoEnv (.ok []) [] [] [] []) "conf/input.redis"
        ["a.toml", "README.md", "b.json"]
      = [Loader.TagLoader, Loader.EnvironmentLoader,
          Loader.TOMLLoader "conf/input.redis/a.toml",
          Loader.JSONLoader "conf/input.redis/b.json"]
      ∧ demoContent (Loader.TOMLLoader "conf/input.redis/a.toml") "address"
          = some "127.0.0.1:6379"
      ∧ demoContent (Loader.JSONLoader "conf/input.redis/b.json") "address"
          = some "10.0.0.1:6379"
      ∧ (loadConfigs overlayEnv "conf/input.redis" (fun _ => none)).1 "address"
          = some "10.0.0.1:6379" :=
  ⟨(composeLoaders_by_suffix (demoEnv (.ok []) [] [] [] []) "conf/input.redis"
      ["a.toml", "README.md", "b.json"]).1.trans (by decide),
    by decide, by decide,
    (composeLoaders_by_suffix overlayEnv "conf/input.redis" ["a.toml", "b.json"]).2.2.2
      (fun c => c) demoContent (fun _ _ => rfl) ["a.toml"] [] "b.json"
      (Loader.JSONLoader "conf/input.redis/b.json") "address" "10.0.0.1:6379"
      (fun _ => none) rfl rfl (by decide) (by decide)
      (fun g hg => absurd hg (List.not_mem_nil g))⟩

/-! ## Stop -/

/-- In a map, looking up the key of an entry gives that entry. -/
theorem mapGet_of_mem {V : Type} (m : List (String × V)) (hk : (keys m).Nodup)
    (e : String × V) (he : e ∈ m) : mapGet m e.1 = some e.2 := by
  induction m with
  | nil => cases he
  | cons x rest ih =>
    obtain ⟨k, v⟩ := x
    simp only [keys, List.map_cons, List.nodup_cons] at hk
    rcases List.mem_cons.mp he with rfl | hmem
    · simp [mapGet]
    · have hne : k ≠ e.1 := by
        rintro rfl
        exact hk.1 (List.mem_map_of_mem Prod.fst hmem)
      simp only [mapGet, hne, if_false]
      exact ih hk.2 hmem

/-- One pass of the loop body of `Stop` on an entry whose queue is open. -/
theorem stopStep_open {I : Type} (w : World I) (name : String) (c : Consumer I)
    (hp : w.panicked = false) (hg : mapGet w.InputConsumers name = some c)
    (ho : c.Queue ∉ w.closed) :
    stopStep w name =
      { InputConsumers := w.InputConsumers
        closed := c.Queue :: w.closed
        nextChan := w.nextChan
        trace := w.trace ++ [Event.StopGoroutines name, Event.close c.Queue]
        panicked := false } := by
  unfold stopStep closeChan
  simp [hp, hg, ho]

/-- The loop of `Stop` over names whose entries have open, pairwise distinct
queues: no panic, and the trace grows by a stop and a close per name. -/
theorem stop_loop {I : Type} (m : List (String × Consumer I)) (names : List String)
    (w : World I) (hm : w.InputConsumers = m) (hp : w.panicked = false)
    (hsome : ∀ n ∈ names, ∃ c, mapGet m n = some c)
    (hnd : (names.map (queueOf m)).Nodup)
    (hopen : ∀ n ∈ names, queueOf m n ∉ w.closed) :
    (names.foldl stopStep w).panicked = false
      ∧ (names.foldl stopStep w).InputConsumers = m
      ∧ (names.foldl stopStep w).trace =
          w.trace ++ names.flatMap
            (fun n => [Event.StopGoroutines n, Event.close (queueOf m n)]) := by
  induction names generalizing w with
  | nil => simp [hp, hm]
  | cons n ns ih =>
    obtain ⟨c, hc⟩ := hsome n (List.mem_cons_self _ _)
    have hq : queueOf m n = c.Queue := by simp [queueOf, hc]
    have ho : c.Queue ∉ w.closed := hq ▸ hopen n (List.mem_cons_self _ _)
    rw [List.foldl_cons, stopStep_open w n c hp (hm ▸ hc) ho]
    simp only [List.map_cons, List.nodup_cons] at hnd
    have := ih
      { InputConsumers := w.InputConsumers
        closed := c.Queue :: w.closed
        nextChan := w.nextChan
        trace := w.trace ++ [Event.StopGoroutines n, Event.close c.Queue]
        panicked := false } hm rfl
      (fun x hx => hsome x (List.mem_cons_of_mem _ hx)) hnd.2
      (by
        intro x hx hmem
        rcases List.mem_cons.mp hmem with h | h
        · exact hnd.1 (by rw [hq, ← h]; exact List.mem_map_of_mem (queueOf m) hx)
        · exact hopen x (List.mem_cons_of_mem _ hx) h)
    refine ⟨this.1, this.2.1, ?_⟩
    rw [this.2.2]
    simp [hq]

/-- The events of `Stop` on a table whose queues are open and pairwise
distinct. -/
theorem Stop_open {I : Type} (a : Agent) (w : World I) (hp : w.panicked = false)
    (hk : (keys w.InputConsumers).Nodup)
    (hq : (w.InputConsumers.map (fun e => e.2.Queue)).Nodup)
    (hopen : ∀ e ∈ w.InputConsumers, e.2.Queue ∉ w.closed) :
    (Stop a w).panicked = false
      ∧ (Stop a w).InputConsumers = w.InputConsumers
      ∧ (Stop a w).trace = w.trace ++ w.InputConsumers.flatMap stopEvents := by
  have hqo : ∀ e ∈ w.InputConsumers, queueOf w.InputConsumers e.1 = e.2.Queue := by
    intro e he
    simp [queueOf, mapGet_of_mem w.InputConsumers hk e he]
  have hmap : (keys w.InputConsumers).map (queueOf w.InputConsumers) =
      w.InputConsumers.map (fun e => e.2.Queue) := by
    rw [keys, List.map_map]
    exact List.map_congr_left hqo
  have h := stop_loop w.InputConsumers (keys w.InputConsumers) w rfl hp
    (by
      intro n hn
      obtain ⟨e, he, rfl⟩ := List.mem_map.mp hn
      exact ⟨e.2, mapGet_of_mem w.InputConsumers hk e he⟩)
    (by rw [hmap]; exact hq)
    (by
      intro n hn
      obtain ⟨e, he, rfl⟩ := List.mem_map.mp hn
      rw [hqo e he]
      exact hopen e he)
  refine ⟨h.1, h.2.1, ?_⟩
  unfold Stop
  rw [h.2.2, keys, List.flatMap_map]
  congr 1
  rw [List.flatMap_def, List.flatMap_def]
  congr 1
  apply List.map_congr_left
  intro e he
  simp [stopEvents, hqo e he]

/-- Stop invocations of a name in the events of a table: one per entry with
that key. -/
theorem count_stop_events {I : Type} (m : List (String × Consumer I)) (n : String) :
    (m.flatMap stopEvents).count (Event.StopGoroutines n) = (keys m).count n := by
  induction m with
  | nil => rfl
  | cons e rest ih =>
    simp only [List.flatMap_cons, stopEvents, keys, List.map_cons, List.cons_append,
      List.nil_append, List.count_cons] at ih ⊢
    rw [ih]
    simp

/-- Closes of a channel in the events of a table: one per entry with that
queue. -/
theorem count_close_events {I : Type} (m : List (String × Consumer I)) (q : Nat) :
    (m.flatMap stopEvents).count (Event.close q) = (m.map (fun e => e.2.Queue)).count q := by
  induction m with
  | nil => rfl
  | cons e rest ih =>
    simp only [List.flatMap_cons, stopEvents, List.map_cons, List.cons_append,
      List.nil_append, List.count_cons] at ih ⊢
    rw [ih]
    simp

/-- In the events of a table, the close of an entry comes after its stop. -/
theorem stop_before_close {I : Type} (m : List (String × Consumer I))
    (e : String × Consumer I) (he : e ∈ m) :
    ∃ pre post : List Event, m.flatMap stopEvents = pre ++ Event.close e.2.Queue :: post
      ∧ Event.StopGoroutines e.1 ∈ pre := by
  obtain ⟨l1, l2, rfl⟩ := List.append_of_mem he
  refine ⟨l1.flatMap stopEvents ++ [Event.StopGoroutines e.1], l2.flatMap stopEvents, ?_, ?_⟩
  · simp [stopEvents]
  · simp

/-- In the events of a table, every close has the stop of an owning entry
before it. -/
theorem close_has_stop_before {I : Type} (m : List (String × Consumer I))
    (pre post : List Event) (q : Nat)
    (h : m.flatMap stopEvents = pre ++ Event.close q :: post) :
    ∃ e ∈ m, e.2.Queue = q ∧ Event.StopGoroutines e.1 ∈ pre := by
  induction m generalizing pre with
  | nil => simp at h
  | cons x rest ih =>
    simp only [List.flatMap_cons, stopEvents, List.cons_append, List.nil_append] at h
    cases pre with
    | nil => simp at h
    | cons p1 pre1 =>
      simp only [List.cons_append, List.cons.injEq] at h
      obtain ⟨hp1, h⟩ := h
      cases pre1 with
      | nil =>
        simp only [List.nil_append, List.cons.injEq, Event.close.injEq] at h
        exact ⟨x, List.mem_cons_self _ _, h.1, by simp [← hp1]⟩
      | cons p2 pre2 =>
        simp only [List.cons_append, List.cons.injEq] at h
        obtain ⟨e, he, hq, hs⟩ := ih pre2 (by simpa [stopEvents] using h.2)
        exact ⟨e, List.mem_cons_of_mem _ he, hq,
          List.mem_cons_of_mem _ (List.mem_cons_of_mem _ hs)⟩

/-- The events of a table with unique keys and pairwise distinct queues meet
the contract of `Stop`. -/
theorem stopContract_events {I : Type} (m : List (String × Consumer I))
    (hk : (keys m).Nodup) (hq : (m.map (fun e => e.2.Queue)).Nodup) :
    StopContract m (m.flatMap stopEvents) := by
  refine ⟨?_, close_has_stop_before m⟩
  intro e he
  refine ⟨?_, ?_, stop_before_close m e he⟩
  · rw [count_stop_events]
    exact List.count_eq_one_of_mem hk (List.mem_map_of_mem Prod.fst he)
  · rw [count_close_events]
    exact List.count_eq_one_of_mem hq (List.mem_map_of_mem (fun e => e.2.Queue) he)

/-- C4 as stated fails. After `Start` activated `redis` and `mysql` and `Stop`
ran once, the table still holds both entries with their queues closed; a
further `Stop` invokes the stop of `redis`, panics on closing its queue, and
never reaches `mysql`, so the entry `mysql` gets no stop invocation and no
queue is closed. And on a table whose entries `a` and `b` hold the same queue,
that queue is closed before the stop of `b` is invoked. -/
theorem Stop_contract_fails_on_closed_queue :
    keys (Stop demoAgent (Start twoPluginEnv demoAgent (World.init String))).InputConsumers
        = ["redis", "mysql"]
      ∧ emitted
          (Stop demoAgent (Start twoPluginEnv demoAgent (World.init String)))
          (Stop demoAgent (Stop demoAgent (Start twoPluginEnv demoAgent (World.init String))))
        = [Event.StopGoroutines "redis", Event.runtimePanic "close of closed channel"]
      ∧ ¬ StopContract
          (Stop demoAgent (Start twoPluginEnv demoAgent (World.init String))).InputConsumers
          (emitted
            (Stop demoAgent (Start twoPluginEnv demoAgent (World.init String)))
            (Stop demoAgent
              (Stop demoAgent (Start twoPluginEnv demoAgent (World.init String)))))
      ∧ emitted sharedQueueWorld (Stop demoAgent sharedQueueWorld)
        = [Event.StopGoroutines "a", Event.close 0, Event.StopGoroutines "b",
            Event.runtimePanic "close of closed channel"]
      ∧ ¬ StopContract sharedQueueWorld.InputConsumers
          (emitted sharedQueueWorld (Stop demoAgent sharedQueueWorld)) := by
  refine ⟨by decide, by decide, ?_, by decide, ?_⟩
  · intro h
    have h1 := (h.1 ("mysql", { Instance := "mysql", Queue := 1 }) (by decide)).1
    revert h1
    decide
  · intro h
    have hev : emitted sharedQueueWorld (Stop demoAgent sharedQueueWorld)
        = [Event.StopGoroutines "a", Event.close 0, Event.StopGoroutines "b",
            Event.runtimePanic "close of closed channel"] := by decide
    obtain ⟨pre, post, hsplit, hmem⟩ :=
      (h.1 ("b", { Instance := "b", Queue := 0 }) (by decide)).2.2
    rw [hev] at hsplit
    rcases pre with _ | ⟨p1, _ | ⟨p2, _ | ⟨p3, _ | ⟨p4, pre⟩⟩⟩⟩
    · simp at hmem
    · simp only [List.cons_append, List.nil_append, List.cons.injEq] at hsplit
      rw [← hsplit.1] at hmem
      revert hmem
      decide
    · simp at hsplit
    · simp at hsplit
    · simp at hsplit

/-- C4, amended: for every state in which no panic has happened, the table has
unique keys, and the queues of its entries are open and pairwise distinct,
`Stop` does not panic and performs, for each entry, exactly one invocation of
its plugin stop operation and exactly one close of its queue, the stop before
the close; and every close of a queue comes after the stop of an entry owning
that queue. -/
theorem Stop_stops_then_closes {I : Type} (a : Agent) (w : World I)
    (hp : w.panicked = false) (hk : (keys w.InputConsumers).Nodup)
    (hq : (w.InputConsumers.map (fun e => e.2.Queue)).Nodup)
    (hopen : ∀ e ∈ w.InputConsumers, e.2.Queue ∉ w.closed) :
    (Stop a w).panicked = false
      ∧ StopContract w.InputConsumers (emitted w (Stop a w)) := by
  have h := Stop_open a w hp hk hq hopen
  refine ⟨h.1, ?_⟩
  have he : emitted w (Stop a w) = w.InputConsumers.flatMap stopEvents := by
    unfold emitted
    rw [h.2.2]
    simp
  rw [he]
  exact stopContract_events w.InputConsumers hk hq

/-- C4, amended, at the state right after `Start` activated `redis` and
`mysql`. -/
theorem Stop_stops_then_closes_witness :
    (Start twoPluginEnv demoAgent (World.init String)).panicked = false
      ∧ (Stop demoAgent (Start twoPluginEnv demoAgent (World.init String))).panicked = false
      ∧ StopContract (Start twoPluginEnv demoAgent (World.init String)).InputConsumers
          (emitted (Start twoPluginEnv demoAgent (World.init String))
            (Stop demoAgent (Start twoPluginEnv demoAgent (World.init String)))) :=
  ⟨by decide,
    Stop_stops_then_closes demoAgent (Start twoPluginEnv demoAgent (World.init String))
      (by decide) (by decide) (by decide) (by decide)⟩

/-! ## Reload -/

/-- The loop body of `Stop` never changes the table. -/
theorem stopStep_table {I : Type} (w : World I) (name : String) :
    (stopStep w name).InputConsumers = w.InputConsumers := by
  unfold stopStep closeChan
  cases w.panicked with
  | true => rfl
  | false =>
    cases mapGet w.InputConsumers name with
    | none => rfl
    | some c =>
      by_cases hc : c.Queue ∈ w.closed
      · simp [hc]
      · simp [hc]

/-- The method `Stop` never changes the table. -/
theorem Stop_table {I : Type} (a : Agent) (w : World I) :
    (Stop a w).InputConsumers = w.InputConsumers := by
  unfold Stop
  generalize keys w.InputConsumers = names
  induction names generalizing w with
  | nil => rfl
  | cons n ns ih => rw [List.foldl_cons, ih, stopStep_table]

/-- The method `Start` does not touch the panic flag. -/
theorem Start_panicked {I : Type} (env : Env I) (a : Agent) (w : World I) :
    (Start env a w).panicked = w.panicked := by
  unfold Start startInputs
  cases getInputsByDirs env a with
  | error e => rfl
  | ok names =>
    by_cases h0 : names.length = 0
    · simp [h0]
    · simp only [h0, if_false]
      exact startLoop_panicked env a names w

/-- The keys after `Start`: the keys before, and the activated names. -/
theorem Start_keys {I : Type} (env : Env I) (a : Agent) (w : World I) (n : String) :
    n ∈ keys (Start env a w).InputConsumers ↔
      n ∈ keys w.InputConsumers ∨ n ∈ activated env a := by
  unfold Start activated
  cases h : getInputsByDirs env a with
  | error e => simp [startInputs, h]
  | ok names =>
    rw [startInputs_ok env a w names h]
    simp only [startLoop_keys, List.mem_filter]

/-- The keys after `Reload`: the keys before and, unless `Stop` panicked, the
activated names. -/
theorem Reload_keys {I : Type} (env : Env I) (a : Agent) (w : World I) (n : String) :
    n ∈ keys (Reload env a w).InputConsumers ↔
      n ∈ keys w.InputConsumers
        ∨ ((Reload env a w).panicked = false ∧ n ∈ activated env a) := by
  unfold Reload
  cases hp : (Stop a w).panicked with
  | true => simp [hp, Stop_table]
  | false => simp [hp, Start_keys, Stop_table, Start_panicked]

/-- C8: with the same environment (listing, registry, load and `TidyConfig`
outcomes) for both runs, the key set of the table after `Reload` followed
immediately by a second `Reload` equals the key set after the first `Reload`
alone, from every prior state. -/
theorem Reload_twice_same_names {I : Type} (env : Env I) (a : Agent) (w : World I)
    (n : String) :
    n ∈ keys (run env a [Call.Reload, Call.Reload] w).InputConsumers ↔
      n ∈ keys (run env a [Call.Reload] w).InputConsumers := by
  simp only [run, call]
  cases hw : w.panicked with
  | true => simp
  | false =>
    simp only [Bool.false_eq_true, if_false]
    cases h1 : (Reload env a w).panicked with
    | true => simp
    | false =>
      simp only [Bool.false_eq_true, if_false]
      rw [Reload_keys env a (Reload env a w) n, Reload_keys env a w n, h1]
      tauto

/-- C8 at a root with `input.redis`, from the initial state: both runs finish
without panic and `redis` is a key after each. -/
theorem Reload_twice_same_names_witness :
    (run redisEnv demoAgent [Call.Reload, Call.Reload] (World.init String)).panicked = false
      ∧ "redis" ∈ keys (run redisEnv demoAgent [Call.Reload, Call.Reload]
          (World.init String)).InputConsumers :=
  ⟨by decide,
    (Reload_twice_same_names redisEnv demoAgent (World.init String) "redis").mpr (by decide)⟩

/-! ## Where the code departs from the specification -/

/-- C3 on the code: the root holds `input.redis`, `redis` is registered, its
`loadConfigs` returns an error and its `TidyConfig` returns none. `startInputs`
drops the error of `loadConfigs`: it allocates queue 0, starts the Consumer and
inserts `redis`, so the table has one entry, not zero. -/
theorem startInputs_ignores_load_error :
    loadConfigs loadFailingEnv "conf/input.redis" "redis"
        = ("redis", some "required field missing")
      ∧ (startInputs loadFailingEnv demoAgent (World.init String)).2 = none
      ∧ (startInputs loadFailingEnv demoAgent (World.init String)).1.InputConsumers
          = [("redis", { Instance := "redis", Queue := 0 })]
      ∧ (startInputs loadFailingEnv demoAgent (World.init String)).1.trace
          = [Event.make 0 1000000, Event.goConsume 0, Event.StartGoroutines 0] := by
  decide

/-- C5 on the code: `Start` activated `redis` (queue 0); then the directory
`input.redis` is removed and `Reload` runs. `Stop` closes queue 0 and leaves
the entry in the table, `Start` activates nothing, so after `Reload` the table
still holds the old `redis` Consumer, whose queue is closed, although this
`Start` activated no name. -/
theorem Reload_keeps_stale_entry :
    (Start redisEnv demoAgent (World.init String)).InputConsumers
        = [("redis", { Instance := "redis", Queue := 0 })]
      ∧ activated emptyRootEnv demoAgent = []
      ∧ (Reload emptyRootEnv demoAgent
          (Start redisEnv demoAgent (World.init String))).panicked = false
      ∧ (Reload emptyRootEnv demoAgent
          (Start redisEnv demoAgent (World.init String))).InputConsumers
          = [("redis", { Instance := "redis", Queue := 0 })]
      ∧ 0 ∈ (Reload emptyRootEnv demoAgent
          (Start redisEnv demoAgent (World.init String))).closed := by
  decide

/-- C10 on the code: from the initial state with `input.redis` configured,
`Start`, `Stop`, `Stop` ends in the close-of-closed-channel panic, because the
first `Stop` leaves the entry of `redis` in the table; likewise, after the
directory `input.redis` is removed, `Reload` followed by `Stop` panics on the
stale entry. -/
theorem Stop_twice_panics :
    (run redisEnv demoAgent [Call.Start, Call.Stop] (World.init String)).panicked = false
      ∧ (run redisEnv demoAgent [Call.Start, Call.Stop, Call.Stop]
          (World.init String)).panicked = true
      ∧ (run redisEnv demoAgent [Call.Start, Call.Stop, Call.Stop] (World.init String)).trace
          = [Event.make 0 1000000, Event.goConsume 0, Event.StartGoroutines 0,
              Event.StopGoroutines "redis", Event.close 0,
              Event.StopGoroutines "redis", Event.runtimePanic "close of closed channel"]
      ∧ (run emptyRootEnv demoAgent [Call.Reload, Call.Stop]
          (run redisEnv demoAgent [Call.Start] (World.init String))).panicked = true := by
  decide

end Categraf
